import Mathlib

/-!
Verification of the glitchcam image-stream corruption engine
(`src/js/glitch.js`, class `GlitchEngine`) against its design
specification.

Modelling conventions for the shallow embedding:

* A JavaScript `Uint8Array` is modelled as `List Nat`; every value stored
  is a byte (below 256), but the algorithms never depend on that bound,
  so it is not carried around.  Out-of-range writes on a `Uint8Array`
  are silently ignored, exactly as `List.set` ignores an out-of-range
  index; out-of-range reads yield `undefined`, which we model with
  option-valued indexing (`l[i]?`).
* JavaScript numbers are modelled as exact arithmetic.  The only
  non-integer computations in the engine are `Math.floor(len * 0.5)`,
  `Math.floor(len * 0.3)` and `Math.floor(len * 0.2)`, which we render
  as `len * 5 / 10`, `len * 3 / 10` and `len * 2 / 10` in `Nat`
  (truncating division); for every stream length a browser can actually
  materialise these agree with the IEEE-754 evaluation.
* JavaScript strings are modelled as Lean `String` (sequences of
  Unicode scalar values).
* A thrown `Error` is modelled with `Except` over an error type whose
  constructors correspond one-to-one to the `throw new Error(...)`
  sites of the source.
-/

/-- Modelled from the spec: the external `TextEncoder` primitive used by
`setReplacementChars` ("re-derives sourceBytes/destBytes via UTF-8
encoding", spec section 4.1).  UTF-8 encoding of a single Unicode scalar
value, given by its code point. -/
def utf8EncodeCharNat (c : Nat) : List Nat :=
  if c < 0x80 then
    [c]
  else if c < 0x800 then
    [0xC0 + c / 0x40, 0x80 + c % 0x40]
  else if c < 0x10000 then
    [0xE0 + c / 0x1000, 0x80 + c / 0x40 % 0x40, 0x80 + c % 0x40]
  else
    [0xF0 + c / 0x40000, 0x80 + c / 0x1000 % 0x40, 0x80 + c / 0x40 % 0x40,
      0x80 + c % 0x40]

/-- Modelled from the spec: UTF-8 encoding of a whole string, the byte
sequence produced by `new TextEncoder().encode(s)`. -/
def utf8Encode (s : String) : List Nat :=
  s.data.flatMap fun c => utf8EncodeCharNat c.toNat

/-- The configuration state of `GlitchEngine` that the corruption pass
reads: the replacement character strings (`this.sourceChars`,
`this.destChars`), the corruption mode string (`this.corruptionMode`)
and the header-protection flag (`this.headerProtection`).

`setReplacementChars` (and the constructor) always set
`this.sourceBytes = new TextEncoder().encode(this.sourceChars)` and
likewise for `destBytes`, and nothing else ever writes those fields, so
the byte sequences are modelled as derived values (`sourceBytes`,
`destBytes` below) rather than independent fields. -/
structure GlitchConfig where
  sourceChars : String
  destChars : String
  corruptionMode : String
  headerProtection : Bool
  deriving Repr, DecidableEq

/-- The derived `this.sourceBytes` field of the engine. -/
def GlitchConfig.sourceBytes (cfg : GlitchConfig) : List Nat :=
  utf8Encode cfg.sourceChars

/-- The derived `this.destBytes` field of the engine. -/
def GlitchConfig.destBytes (cfg : GlitchConfig) : List Nat :=
  utf8Encode cfg.destChars

/-- The engine state as built by the constructor of `GlitchEngine`:
sourceChars = "a", destChars = "b", corruptionMode = "jpeg",
headerProtection = true. -/
def GlitchConfig.init : GlitchConfig :=
  { sourceChars := "a", destChars := "b", corruptionMode := "jpeg",
    headerProtection := true }

/-- `GlitchEngine.setReplacementChars`: stores the two strings and
re-derives the byte sequences (the derivation is implicit in
`GlitchConfig.sourceBytes` and `GlitchConfig.destBytes`). -/
def GlitchConfig.setReplacementChars (cfg : GlitchConfig)
    (sourceChars destChars : String) : GlitchConfig :=
  { cfg with sourceChars := sourceChars, destChars := destChars }

/-- `GlitchEngine.setCorruptionMode`: `this.corruptionMode = mode`, with
no validation whatsoever. -/
def GlitchConfig.setCorruptionMode (cfg : GlitchConfig) (mode : String) :
    GlitchConfig :=
  { cfg with corruptionMode := mode }

/-- `GlitchEngine.setHeaderProtection`: `this.headerProtection = enabled`. -/
def GlitchConfig.setHeaderProtection (cfg : GlitchConfig) (enabled : Bool) :
    GlitchConfig :=
  { cfg with headerProtection := enabled }

/-- One `throw new Error(...)` site of `glitch.js` per constructor. -/
inductive GlitchError where
  /-- line 28: `Unknown corruption mode: ...` (in `applyEffect`). -/
  | unknownCorruptionMode (mode : String)
  /-- line 67: `Unsupported image format: ...` (in `corruptImageStream`). -/
  | unsupportedImageFormat (format : String)
  /-- line 74: `BMP format not supported by this browser`. -/
  | bmpNotSupportedByBrowser
  /-- line 108: `Unknown format for header protection: ...`. -/
  | unknownFormatForHeaderProtection (format : String)
  /-- line 268: `Unknown corruption mode for header protection: ...`. -/
  | unknownModeForHeaderProtection (mode : String)
  deriving Repr, DecidableEq

/-- The inner loop of the match test of `corruptImageBytes` (lines
273-281): position `i` matches when for every `j < sourceBytes.length`
the read `bytes[i + j]` yields exactly `sourceBytes[j]`.  An
out-of-range read of a `Uint8Array` yields `undefined`, which compares
unequal to every byte, hence the option-valued read. -/
def matchesAt (bytes src : List Nat) (i : Nat) : Bool :=
  (List.range src.length).all fun j => bytes[i + j]? == some (src.getD j 0)

/-- Sequential in-place writes `bytes[i] = repl[0]`, `bytes[i+1] = repl[1]`,
... ; a write at an out-of-range index of a `Uint8Array` is silently
dropped, as is `List.set` out of range. -/
def writeBytes (bytes : List Nat) (i : Nat) : List Nat → List Nat
  | [] => bytes
  | b :: rest => writeBytes (bytes.set i b) (i + 1) rest

/-- The byte sequence written over a match by lines 284-296 of
`corruptImageBytes`: the first `min (length dest) (length source)`
destination bytes, then, when `dest` is shorter than `source`, the last
destination byte repeated.  (`destBytes[destBytes.length - 1]` on an
empty `destBytes` reads `undefined`, which a `Uint8Array` write coerces
to 0; hence `getLastD _ 0`.  The guard of `corruptImageBytes` keeps
that case unreachable.) -/
def replacementBytes (src dst : List Nat) : List Nat :=
  dst.take (min dst.length src.length) ++
    (if dst.length < src.length then
      List.replicate (src.length - dst.length) (dst.getLastD 0)
    else [])

theorem writeBytes_length (repl : List Nat) (bytes : List Nat) (i : Nat) :
    (writeBytes bytes i repl).length = bytes.length := by
  induction repl generalizing bytes i with
  | nil => rfl
  | cons b rest ih => simp [writeBytes, ih]

/-- The scan-and-replace loop of `corruptImageBytes` (lines 273-302),
starting at position `i`, returning the mutated byte buffer together
with `replacementCount`.  The loop runs while
`i <= bytes.length - sourceBytes.length` (JavaScript subtraction, which
for a nonempty `src` is the condition `i + src.length <= bytes.length`);
on a match it writes the replacement bytes and resumes at
`i + src.length` (`i += sourceBytes.length - 1` followed by the loop
increment).  For an empty `src` the JavaScript loop would not terminate
(every position matches and the position never advances); the guard of
`corruptImageBytes` makes that case unreachable, and the model returns
the buffer unchanged there. -/
def corruptScan (src dst : List Nat) (bytes : List Nat) (i : Nat) :
    List Nat × Nat :=
  if hsrc : src = [] then
    (bytes, 0)
  else if h : i + src.length ≤ bytes.length then
    if matchesAt bytes src i then
      let bytes2 := writeBytes bytes i (replacementBytes src dst)
      let rest := corruptScan src dst bytes2 (i + src.length)
      (rest.1, rest.2 + 1)
    else
      corruptScan src dst bytes (i + 1)
  else
    (bytes, 0)
termination_by bytes.length + 1 - i
decreasing_by
  · simp only [writeBytes_length]
    have : 0 < src.length := List.length_pos.mpr hsrc
    omega
  · omega

/-- Lines 246-270 of `corruptImageBytes`: the start position of the scan.
`startByte` is the `skipBytes` argument; when `this.headerProtection` is
set it is raised to the format-specific fraction of the stream length
(`Math.floor(bytes.length * 0.5)` for png, `* 0.3` for webp, `* 0.2`
for bmp, unchanged for jpeg), and an unrecognized mode throws. -/
def startByteOf (headerProtection : Bool) (mode : String)
    (skipBytes len : Nat) : Except GlitchError Nat :=
  if headerProtection then
    match mode with
    | "png" => .ok (max skipBytes (len * 5 / 10))
    | "webp" => .ok (max skipBytes (len * 3 / 10))
    | "bmp" => .ok (max skipBytes (len * 2 / 10))
    | "jpeg" => .ok skipBytes
    | m => .error (.unknownModeForHeaderProtection m)
  else
    .ok skipBytes

/-- `GlitchEngine.corruptImageBytes(bytes, skipBytes)` (lines 239-308):
under the guard
`sourceChars !== destChars && sourceBytes.length > 0 && destBytes.length > 0`
it computes the start position and runs the scan-and-replace loop;
otherwise the buffer is untouched.  The returned pair is the mutated
buffer and the local `replacementCount`. -/
def corruptImageBytes (cfg : GlitchConfig) (bytes : List Nat)
    (skipBytes : Nat) : Except GlitchError (List Nat × Nat) :=
  if cfg.sourceChars != cfg.destChars && cfg.sourceBytes.length > 0 &&
      cfg.destBytes.length > 0 then
    match startByteOf cfg.headerProtection cfg.corruptionMode
        skipBytes bytes.length with
    | .error e => .error e
    | .ok startByte =>
      .ok (corruptScan cfg.sourceBytes cfg.destBytes bytes startByte)
  else
    .ok (bytes, 0)

/-- Lines 91-110 of `corruptImageStream`: the format-specific
header-protection skip.  `skipBytes` stays 0 when `this.headerProtection`
is off; otherwise it is looked up per format, and an unrecognized format
throws. -/
def streamSkipBytes (headerProtection : Bool) (format : String) :
    Except GlitchError Nat :=
  if headerProtection then
    match format with
    | "jpeg" => .ok 50
    | "png" => .ok 200
    | "webp" => .ok 100
    | "bmp" => .ok 30
    | f => .error (.unknownFormatForHeaderProtection f)
  else
    .ok 0

/-- The effective start offset of the substitution scan for a stream of
length `len`: the skip bytes computed in `corruptImageStream` combined
with the format-fraction raise applied in `corruptImageBytes` (the spec
calls their combination the effective start offset). -/
def effectiveStart (headerProtection : Bool) (mode : String) (len : Nat) :
    Except GlitchError Nat :=
  match streamSkipBytes headerProtection mode with
  | .error e => .error e
  | .ok skipBytes => startByteOf headerProtection mode skipBytes len

/-- The mime type and quality chosen by lines 48-68 of
`corruptImageStream`; an unrecognized format throws.  The quality 0.95
is modelled as an exact rational. -/
def formatMime (format : String) : Except GlitchError (String × Option ℚ) :=
  match format with
  | "jpeg" => .ok ("image/jpeg", some (95 / 100))
  | "png" => .ok ("image/png", none)
  | "webp" => .ok ("image/webp", some (95 / 100))
  | "bmp" => .ok ("image/bmp", none)
  | f => .error (.unsupportedImageFormat f)

/-- The external `canvas.toDataURL(mimeType, quality)` primitive (spec
section 6, image codec primitive) is modelled as a caller-supplied
function from the requested mime type and quality to the mime type the
platform actually produced together with the decoded payload bytes
(the data URL is `data:` ++ produced mime ++ `;base64,` ++ base64 of
the payload). -/
def EncodePrimitive : Type :=
  String → Option ℚ → String × List Nat

/-- The head of the data URL the primitive returns, as far as the BMP
support check on line 73 ever inspects it: the check reads at most the
first 14 characters, and `;base64,` follows the mime type, so the
base64 payload can never influence it. -/
def dataURLHead (producedMime : String) : String :=
  "data:" ++ producedMime ++ ";base64,"

/-- JavaScript `String.prototype.startsWith`, modelled on the character
list level. -/
def strStartsWith (s p : String) : Bool :=
  p.data.isPrefixOf s.data

/-- Lines 116-119 of `corruptImageStream`: `changedBytes`, the number of
positions at which the corrupted buffer differs from the copy taken
before corruption (both have the same length). -/
def changedCount (before after : List Nat) : Nat :=
  (List.range after.length).countP fun i => !(after[i]? == before[i]?)

/-- `GlitchEngine.corruptImageStream(imageData, format)` (lines 39-180),
up to the point where the corrupted bytes are handed to the
decode-or-timeout reconstruction race: choose mime type and quality
(throwing on an unrecognized format), obtain the encoded stream from
the external primitive, reject a silently PNG-substituted BMP stream,
and, when the glitch is active, compute the header-protection skip,
corrupt the bytes and count the changed positions.  The value returned
is the (possibly corrupted) byte stream together with `changedBytes`.
The asynchronous reconstruction of the stream into pixels is modelled
separately by `useCorruptedBytes`. -/
def corruptImageStream (cfg : GlitchConfig) (isActive : Bool)
    (format : String) (encodePrim : EncodePrimitive) :
    Except GlitchError (List Nat × Nat) :=
  match formatMime format with
  | .error e => .error e
  | .ok (mimeType, quality) =>
    let (producedMime, bytes) := encodePrim mimeType quality
    if format == "bmp" &&
        strStartsWith (dataURLHead producedMime) "data:image/png" then
      .error .bmpNotSupportedByBrowser
    else if isActive then
      match streamSkipBytes cfg.headerProtection format with
      | .error e => .error e
      | .ok skipBytes =>
        match corruptImageBytes cfg bytes skipBytes with
        | .error e => .error e
        | .ok (corrupted, _replacementCount) =>
          .ok (corrupted, changedCount bytes corrupted)
    else
      .ok (bytes, 0)

/-- `GlitchEngine.applyEffect(imageData)` (lines 15-30): dispatch on
`this.corruptionMode`; each of the four recognized modes forwards to
`corruptImageStream`, anything else throws `Unknown corruption mode`. -/
def applyEffect (cfg : GlitchConfig) (isActive : Bool)
    (encodePrim : EncodePrimitive) : Except GlitchError (List Nat × Nat) :=
  match cfg.corruptionMode with
  | "jpeg" => corruptImageStream cfg isActive "jpeg" encodePrim
  | "png" => corruptImageStream cfg isActive "png" encodePrim
  | "webp" => corruptImageStream cfg isActive "webp" encodePrim
  | "bmp" => corruptImageStream cfg isActive "bmp" encodePrim
  | mode => .error (.unknownCorruptionMode mode)

/-- Modelled from the spec: the spec error kind `UnsupportedFormat`
(section 7: "encoder cannot produce the requested container, or detects
fallback substitution such as BMP to PNG") covers the two encoder
throw sites of `corruptImageStream`. -/
def GlitchError.isUnsupportedFormat : GlitchError → Bool
  | .unsupportedImageFormat _ => true
  | .bmpNotSupportedByBrowser => true
  | _ => false

/-- `GlitchEngine.useCorruptedBytes(corruptedBytes, originalImageData)`
(lines 182-208): the fallback reconstruction.  A fresh RGBA pixel
buffer of the original dimensions is filled pixel by pixel, cycling
through the corrupted bytes; the returned list is the flat `.data`
array of length `width * height * 4`.  (For empty `corruptedBytes` the
JavaScript index `pixel % 0` is `NaN`, the reads give `undefined` and
the `Uint8ClampedArray` write coerces that to 0, which `getD _ 0`
reproduces.) -/
def useCorruptedBytes (corruptedBytes : List Nat) (width height : Nat) :
    List Nat :=
  (List.range (width * height)).flatMap fun pixel =>
    let byteIdx := pixel % corruptedBytes.length
    [corruptedBytes.getD byteIdx 0,
      corruptedBytes.getD ((byteIdx + 1) % corruptedBytes.length) 0,
      corruptedBytes.getD ((byteIdx + 2) % corruptedBytes.length) 0,
      255]

/-- The scan-and-replace loop of `corruptImageBytes` once more, this
time instrumented to record the position of every match it replaces
(in the order the loop finds them) instead of only counting them.  The
recursion structure is identical to `corruptScan`. -/
def corruptScanPositions (src dst : List Nat) (bytes : List Nat) (i : Nat) :
    List Nat :=
  if hsrc : src = [] then
    []
  else if h : i + src.length ≤ bytes.length then
    if matchesAt bytes src i then
      i :: corruptScanPositions src dst
        (writeBytes bytes i (replacementBytes src dst)) (i + src.length)
    else
      corruptScanPositions src dst bytes (i + 1)
  else
    []
termination_by bytes.length + 1 - i
decreasing_by
  · simp only [writeBytes_length]
    have : 0 < src.length := List.length_pos.mpr hsrc
    omega
  · omega

/-- The match test with checked indexing: every read `bytes[i + j]`
must be in range, otherwise the error branch `none` is taken.  Used to
state that the scan never reads out of bounds. -/
def matchesAtChecked (bytes src : List Nat) (i : Nat) (j : Nat) :
    Option Bool :=
  if hj : j < src.length then
    match bytes[i + j]? with
    | none => none
    | some b =>
      if b = src.getD j 0 then matchesAtChecked bytes src i (j + 1)
      else some false
  else
    some true
termination_by src.length - j

/-- In-place writes with checked indexing: every write must be in
range, otherwise the error branch `none` is taken. -/
def writeBytesChecked (bytes : List Nat) (i : Nat) :
    List Nat → Option (List Nat)
  | [] => some bytes
  | b :: rest =>
    if i < bytes.length then writeBytesChecked (bytes.set i b) (i + 1) rest
    else none

theorem writeBytesChecked_length (repl : List Nat) :
    ∀ (bytes out : List Nat) (i : Nat),
      writeBytesChecked bytes i repl = some out →
      out.length = bytes.length := by
  induction repl with
  | nil =>
    intro bytes out i h
    simp [writeBytesChecked] at h
    simp [← h]
  | cons b rest ih =>
    intro bytes out i h
    simp only [writeBytesChecked] at h
    split at h
    · have := ih (bytes.set i b) out (i + 1) h
      simpa using this
    · exact absurd h (by simp)

/-- The scan-and-replace loop with checked indexing throughout: any
out-of-range read in the match test or out-of-range write in the
replacement takes the error branch `none`. -/
def corruptScanChecked (src dst : List Nat) (bytes : List Nat) (i : Nat) :
    Option (List Nat × Nat) :=
  if hsrc : src = [] then
    some (bytes, 0)
  else if h : i + src.length ≤ bytes.length then
    match matchesAtChecked bytes src i 0 with
    | none => none
    | some true =>
      match hw : writeBytesChecked bytes i (replacementBytes src dst) with
      | none => none
      | some bytes2 =>
        match corruptScanChecked src dst bytes2 (i + src.length) with
        | none => none
        | some rest => some (rest.1, rest.2 + 1)
    | some false =>
      corruptScanChecked src dst bytes (i + 1)
  else
    some (bytes, 0)
termination_by bytes.length + 1 - i
decreasing_by
  · have hlen := writeBytesChecked_length _ _ _ _ hw
    have : 0 < src.length := List.length_pos.mpr hsrc
    omega
  · omega


theorem writeBytes_getElem?_lt (repl : List Nat) :
    ∀ (bytes : List Nat) (i k : Nat), k < i →
      (writeBytes bytes i repl)[k]? = bytes[k]? := by
  induction repl with
  | nil => intro bytes i k _; rfl
  | cons b rest ih =>
    intro bytes i k hk
    rw [writeBytes, ih _ (i + 1) k (by omega)]
    exact List.getElem?_set_ne (by omega)

theorem writeBytes_getElem?_ge (repl : List Nat) :
    ∀ (bytes : List Nat) (i k : Nat), i + repl.length ≤ k →
      (writeBytes bytes i repl)[k]? = bytes[k]? := by
  induction repl with
  | nil => intro bytes i k _; rfl
  | cons b rest ih =>
    intro bytes i k hk
    simp only [List.length_cons] at hk
    rw [writeBytes, ih _ (i + 1) k (by omega)]
    exact List.getElem?_set_ne (by omega)

theorem writeBytes_getElem?_in (repl : List Nat) :
    ∀ (bytes : List Nat) (i k : Nat), i ≤ k → k < i + repl.length →
      k < bytes.length →
      (writeBytes bytes i repl)[k]? = repl[k - i]? := by
  induction repl with
  | nil => intro bytes i k h1 h2 _; simp at h2; omega
  | cons b rest ih =>
    intro bytes i k h1 h2 h3
    rcases Nat.eq_or_lt_of_le h1 with rfl | hlt
    · rw [writeBytes, writeBytes_getElem?_lt rest _ (i + 1) i (by omega)]
      simp [List.getElem?_set_self h3]
    · rw [writeBytes, ih _ (i + 1) k (by omega)
        (by simp only [List.length_cons] at h2; omega) (by simpa using h3)]
      have hki : k - i = (k - (i + 1)) + 1 := by omega
      simp [hki]

theorem replacementBytes_length (src dst : List Nat) :
    (replacementBytes src dst).length = src.length := by
  simp only [replacementBytes, List.length_append, List.length_take]
  split <;> simp <;> omega

theorem replacementBytes_getElem?_dest (src dst : List Nat) (j : Nat)
    (h : j < min dst.length src.length) :
    (replacementBytes src dst)[j]? = dst[j]? := by
  rw [replacementBytes, List.getElem?_append]
  simp only [List.length_take]
  rw [if_pos (by omega), List.getElem?_take]
  exact if_pos (by omega)

theorem replacementBytes_getElem?_pad (src dst : List Nat) (j : Nat)
    (hd : dst.length < src.length) (h1 : dst.length ≤ j)
    (h2 : j < src.length) :
    (replacementBytes src dst)[j]? = some (dst.getLastD 0) := by
  rw [replacementBytes, List.getElem?_append]
  simp only [List.length_take]
  rw [if_neg (by omega), if_pos hd]
  have hmin : min dst.length src.length = dst.length := by omega
  rw [List.getElem?_replicate]
  rw [hmin, if_pos (by omega)]

theorem corruptScan_length (src dst : List Nat) (bytes : List Nat) (i : Nat) :
    (corruptScan src dst bytes i).1.length = bytes.length := by
  induction bytes, i using corruptScan.induct src dst with
  | case1 bytes i hsrc => rw [corruptScan, dif_pos hsrc]
  | case2 bytes i hsrc h hm b2 ih =>
    rw [corruptScan, dif_neg hsrc, dif_pos h, if_pos hm]
    simpa [b2, writeBytes_length] using ih
  | case3 bytes i hsrc h hm ih =>
    rw [corruptScan, dif_neg hsrc, dif_pos h, if_neg hm]
    exact ih
  | case4 bytes i hsrc h =>
    rw [corruptScan, dif_neg hsrc, dif_neg h]

theorem corruptScan_getElem?_lt (src dst : List Nat) (bytes : List Nat)
    (i : Nat) : ∀ k, k < i → (corruptScan src dst bytes i).1[k]? = bytes[k]? := by
  induction bytes, i using corruptScan.induct src dst with
  | case1 bytes i hsrc => intro k hk; rw [corruptScan, dif_pos hsrc]
  | case2 bytes i hsrc h hm b2 ih =>
    intro k hk
    rw [corruptScan, dif_neg hsrc, dif_pos h, if_pos hm]
    have h2 := ih k (by omega)
    simp only [b2] at h2 ⊢
    rw [h2, writeBytes_getElem?_lt _ _ _ _ hk]
  | case3 bytes i hsrc h hm ih =>
    intro k hk
    rw [corruptScan, dif_neg hsrc, dif_pos h, if_neg hm]
    exact ih k (by omega)
  | case4 bytes i hsrc h =>
    intro k hk
    rw [corruptScan, dif_neg hsrc, dif_neg h]

theorem utf8EncodeCharNat_ne_nil (c : Nat) : utf8EncodeCharNat c ≠ [] := by
  unfold utf8EncodeCharNat
  split_ifs <;> simp

theorem utf8EncodeCharNat_append_inj (a b : Nat) (ra rb : List Nat)
    (h : utf8EncodeCharNat a ++ ra = utf8EncodeCharNat b ++ rb) :
    a = b ∧ ra = rb := by
  unfold utf8EncodeCharNat at h
  split_ifs at h <;>
    simp only [List.cons_append, List.nil_append, List.cons.injEq] at h <;>
    refine ⟨by omega, ?_⟩ <;>
    first
    | tauto
    | (exfalso; omega)

theorem utf8Encode_data_inj (l1 : List Char) :
    ∀ l2 : List Char,
      (l1.flatMap fun c => utf8EncodeCharNat c.toNat) =
        (l2.flatMap fun c => utf8EncodeCharNat c.toNat) →
      l1 = l2 := by
  induction l1 with
  | nil =>
    intro l2 h
    cases l2 with
    | nil => rfl
    | cons d ds =>
      rw [List.flatMap_nil, List.flatMap_cons] at h
      exact absurd (List.append_eq_nil.mp h.symm).1 (utf8EncodeCharNat_ne_nil _)
  | cons c cs ih =>
    intro l2 h
    cases l2 with
    | nil =>
      rw [List.flatMap_nil, List.flatMap_cons] at h
      exact absurd (List.append_eq_nil.mp h).1 (utf8EncodeCharNat_ne_nil _)
    | cons d ds =>
      rw [List.flatMap_cons, List.flatMap_cons] at h
      obtain ⟨hc, ht⟩ := utf8EncodeCharNat_append_inj _ _ _ _ h
      have hcd : c = d := by
        have h2 := congrArg Char.ofNat hc
        rwa [Char.ofNat_toNat, Char.ofNat_toNat] at h2
      rw [hcd, ih ds ht]

/-- UTF-8 encoding is injective on strings; this is what links the
byte-sequence comparison of the spec to the character-string comparison
`sourceChars !== destChars` that the code performs. -/
theorem utf8Encode_inj (s1 s2 : String) (h : utf8Encode s1 = utf8Encode s2) :
    s1 = s2 :=
  String.ext (utf8Encode_data_inj s1.data s2.data h)

/-- C1: for every encoded stream and every mode/header-protection
setting (both live inside `cfg`), if the configured source byte sequence
equals the destination byte sequence, or either is empty, then
`corruptImageBytes` performs no substitution: the stream bytes are
returned unchanged and the replacement count is 0. -/
theorem corruptImageBytes_noop (cfg : GlitchConfig) (bytes : List Nat)
    (skipBytes : Nat)
    (h : cfg.sourceBytes = cfg.destBytes ∨ cfg.sourceBytes = [] ∨
      cfg.destBytes = []) :
    corruptImageBytes cfg bytes skipBytes = .ok (bytes, 0) := by
  rw [corruptImageBytes]
  split
  · exfalso
    rename_i hg
    simp only [Bool.and_eq_true, bne_iff_ne, ne_eq, decide_eq_true_eq] at hg
    obtain ⟨⟨hne, hs⟩, hd⟩ := hg
    rcases h with h | h | h
    · exact hne (utf8Encode_inj _ _
        (by simpa [GlitchConfig.sourceBytes, GlitchConfig.destBytes] using h))
    · rw [h] at hs; simp at hs
    · rw [h] at hd; simp at hd
  · rfl

/-- Witness for C1 at a concrete configuration and stream. -/
theorem corruptImageBytes_noop_witness :
    (GlitchConfig.mk "x" "x" "png" true).sourceBytes =
        (GlitchConfig.mk "x" "x" "png" true).destBytes ∧
      corruptImageBytes (GlitchConfig.mk "x" "x" "png" true) [1, 2, 3] 7 =
        .ok ([1, 2, 3], 0) :=
  ⟨rfl, corruptImageBytes_noop (GlitchConfig.mk "x" "x" "png" true) [1, 2, 3] 7
    (Or.inl rfl)⟩

/-- C9: for every stream, pattern configuration, mode and protection
setting, the corruption step preserves the length of the byte stream,
and every byte strictly below the effective start offset of the scan is
left unchanged. -/
theorem corruptImageBytes_frame (cfg : GlitchConfig) (bytes : List Nat)
    (skipBytes : Nat) (res : List Nat) (count : Nat)
    (h : corruptImageBytes cfg bytes skipBytes = .ok (res, count)) :
    res.length = bytes.length ∧
      ∀ startByte,
        startByteOf cfg.headerProtection cfg.corruptionMode skipBytes
          bytes.length = .ok startByte →
        ∀ k, k < startByte → res[k]? = bytes[k]? := by
  rw [corruptImageBytes] at h
  split at h
  · split at h
    · exact absurd h (by simp)
    · rename_i s hstart
      simp only [Except.ok.injEq] at h
      have hres : (corruptScan cfg.sourceBytes cfg.destBytes bytes s).1 = res := by
        rw [h]
      constructor
      · rw [← hres]
        exact corruptScan_length _ _ _ _
      · intro startByte hsb k hk
        rw [hstart] at hsb
        simp only [Except.ok.injEq] at hsb
        subst hsb
        rw [← hres]
        exact corruptScan_getElem?_lt _ _ _ _ k hk
  · simp only [Except.ok.injEq, Prod.mk.injEq] at h
    obtain ⟨hres, _⟩ := h
    rw [← hres]
    exact ⟨rfl, fun _ _ _ _ => rfl⟩

/-- Witness for C9 at a concrete configuration and stream. -/
theorem corruptImageBytes_frame_witness :
    corruptImageBytes (GlitchConfig.mk "a" "b" "jpeg" true) [97, 98, 99] 2 =
        .ok ([97, 98, 99], 0) ∧
      ([97, 98, 99] : List Nat).length = ([97, 98, 99] : List Nat).length ∧
      ∀ startByte,
        startByteOf true "jpeg" 2 3 = .ok startByte →
        ∀ k, k < startByte →
          ([97, 98, 99] : List Nat)[k]? = ([97, 98, 99] : List Nat)[k]? := by
  have h : corruptImageBytes (GlitchConfig.mk "a" "b" "jpeg" true)
      [97, 98, 99] 2 = .ok ([97, 98, 99], 0) := by
    rw [corruptImageBytes]
    simp only [GlitchConfig.sourceBytes, GlitchConfig.destBytes]
    simp only [show utf8Encode "a" = [97] from by decide,
      show utf8Encode "b" = [98] from by decide]
    simp [corruptScan, matchesAt, startByteOf]
  exact ⟨h, corruptImageBytes_frame (GlitchConfig.mk "a" "b" "jpeg" true)
    [97, 98, 99] 2 [97, 98, 99] 0 h⟩

theorem floor_mul_five_tenth (len : Nat) :
    Nat.floor ((len : ℚ) * ((5 : ℚ) / 10)) = len * 5 / 10 := by
  rw [show (len : ℚ) * ((5 : ℚ) / 10) = ((len * 5 : Nat) : ℚ) / ((10 : Nat) : ℚ)
      by push_cast; ring]
  rw [Nat.floor_div_nat, Nat.floor_natCast]

theorem floor_mul_three_tenth (len : Nat) :
    Nat.floor ((len : ℚ) * ((3 : ℚ) / 10)) = len * 3 / 10 := by
  rw [show (len : ℚ) * ((3 : ℚ) / 10) = ((len * 3 : Nat) : ℚ) / ((10 : Nat) : ℚ)
      by push_cast; ring]
  rw [Nat.floor_div_nat, Nat.floor_natCast]

theorem floor_mul_two_tenth (len : Nat) :
    Nat.floor ((len : ℚ) * ((2 : ℚ) / 10)) = len * 2 / 10 := by
  rw [show (len : ℚ) * ((2 : ℚ) / 10) = ((len * 2 : Nat) : ℚ) / ((10 : Nat) : ℚ)
      by push_cast; ring]
  rw [Nat.floor_div_nat, Nat.floor_natCast]

/-- C2: for every stream length and each of the four modes, the
substitution scan starts at offset 0 when header protection is
disabled, and at `max (baseSkip mode) ⌊len * frac mode⌋` when it is
enabled, with baseSkip = {jpeg 50, png 200, webp 100, bmp 30} and
frac = {png 1/2, webp 3/10, bmp 1/5, jpeg 0}. -/
theorem effectiveStart_spec (len : Nat) :
    (∀ mode, effectiveStart false mode len = .ok 0) ∧
      effectiveStart true "jpeg" len =
        .ok (max 50 (Nat.floor ((len : ℚ) * ((0 : ℚ) / 10)))) ∧
      effectiveStart true "png" len =
        .ok (max 200 (Nat.floor ((len : ℚ) * ((5 : ℚ) / 10)))) ∧
      effectiveStart true "webp" len =
        .ok (max 100 (Nat.floor ((len : ℚ) * ((3 : ℚ) / 10)))) ∧
      effectiveStart true "bmp" len =
        .ok (max 30 (Nat.floor ((len : ℚ) * ((2 : ℚ) / 10)))) := by
  refine ⟨fun mode => rfl, ?_, ?_, ?_, ?_⟩
  · rw [show Nat.floor ((len : ℚ) * ((0 : ℚ) / 10)) = 0 by norm_num]
    simp [effectiveStart, streamSkipBytes, startByteOf]
  · rw [floor_mul_five_tenth]
    simp [effectiveStart, streamSkipBytes, startByteOf]
  · rw [floor_mul_three_tenth]
    simp [effectiveStart, streamSkipBytes, startByteOf]
  · rw [floor_mul_two_tenth]
    simp [effectiveStart, streamSkipBytes, startByteOf]

/-- C6: for every stream length and each of the four modes, the
effective start offset with header protection enabled is at least the
effective start offset with it disabled. -/
theorem effectiveStart_monotone (len : Nat) (mode : String)
    (h : mode = "jpeg" ∨ mode = "png" ∨ mode = "webp" ∨ mode = "bmp") :
    ∃ a b, effectiveStart true mode len = .ok a ∧
      effectiveStart false mode len = .ok b ∧ b ≤ a := by
  rcases h with rfl | rfl | rfl | rfl <;>
    exact ⟨_, 0, rfl, rfl, Nat.zero_le _⟩

/-- Witness for C6 at mode png and stream length 10. -/
theorem effectiveStart_monotone_witness :
    ("png" = "jpeg" ∨ "png" = "png" ∨ "png" = "webp" ∨ "png" = "bmp") ∧
      ∃ a b, effectiveStart true "png" 10 = .ok a ∧
        effectiveStart false "png" 10 = .ok b ∧ b ≤ a :=
  ⟨Or.inr (Or.inl rfl),
    effectiveStart_monotone 10 "png" (Or.inr (Or.inl rfl))⟩

theorem flatMap_range_length_four (f : Nat → List Nat)
    (hf : ∀ x, (f x).length = 4) (n : Nat) :
    ((List.range n).flatMap f).length = 4 * n := by
  rw [List.length_flatMap]
  have hmap : List.map (List.length ∘ f) (List.range n) =
      List.map (fun _ => 4) (List.range n) := by
    apply List.map_congr_left
    intro a _
    exact hf a
  rw [hmap, List.map_const']
  simp [List.sum_replicate]
  omega

theorem flatMap_range_four_getElem? (f : Nat → List Nat)
    (hf : ∀ x, (f x).length = 4) :
    ∀ (n p c : Nat), p < n → c < 4 →
      ((List.range n).flatMap f)[4 * p + c]? = (f p)[c]? := by
  intro n
  induction n with
  | zero => intro p c hp _; omega
  | succ n ih =>
    intro p c hp hc
    rw [List.range_succ, List.flatMap_append]
    rcases lt_or_ge p n with hpn | hpn
    · rw [List.getElem?_append,
        if_pos (by rw [flatMap_range_length_four f hf]; omega)]
      exact ih p c hpn hc
    · have hpe : p = n := by omega
      subst hpe
      rw [List.getElem?_append,
        if_neg (by rw [flatMap_range_length_four f hf]; omega)]
      rw [flatMap_range_length_four f hf]
      have hidx : 4 * p + c - 4 * p = c := by omega
      rw [hidx]
      simp

/-- C5: the fallback reconstruction of a non-empty corrupted byte array
into a `width x height` pixel buffer sets, for every pixel `p` below
`width * height` with `i = p % len`, red to `bytes[i]`, green to
`bytes[(i+1) % len]`, blue to `bytes[(i+2) % len]` and alpha to 255;
the buffer has the full RGBA length `width * height * 4`. -/
theorem useCorruptedBytes_spec (bytes : List Nat) (width height p : Nat)
    (hp : p < width * height) (hb : bytes ≠ []) :
    (useCorruptedBytes bytes width height).length = width * height * 4 ∧
      (useCorruptedBytes bytes width height)[4 * p]? =
        some (bytes.getD (p % bytes.length) 0) ∧
      (useCorruptedBytes bytes width height)[4 * p + 1]? =
        some (bytes.getD ((p % bytes.length + 1) % bytes.length) 0) ∧
      (useCorruptedBytes bytes width height)[4 * p + 2]? =
        some (bytes.getD ((p % bytes.length + 2) % bytes.length) 0) ∧
      (useCorruptedBytes bytes width height)[4 * p + 3]? = some 255 := by
  have hf : ∀ x, ([bytes.getD (x % bytes.length) 0,
      bytes.getD ((x % bytes.length + 1) % bytes.length) 0,
      bytes.getD ((x % bytes.length + 2) % bytes.length) 0,
      255] : List Nat).length = 4 := fun _ => rfl
  refine ⟨?_, ?_, ?_, ?_, ?_⟩
  · rw [useCorruptedBytes, flatMap_range_length_four _ hf]
    omega
  · rw [useCorruptedBytes,
      show 4 * p = 4 * p + 0 by omega,
      flatMap_range_four_getElem? _ hf _ p 0 hp (by omega)]
    rfl
  · rw [useCorruptedBytes, flatMap_range_four_getElem? _ hf _ p 1 hp (by omega)]
    rfl
  · rw [useCorruptedBytes, flatMap_range_four_getElem? _ hf _ p 2 hp (by omega)]
    rfl
  · rw [useCorruptedBytes, flatMap_range_four_getElem? _ hf _ p 3 hp (by omega)]
    rfl

/-- Witness for C5: corrupted bytes [10, 20, 30, 40] and a one-pixel
target buffer yield the pixel R=10, G=20, B=30, A=255. -/
theorem useCorruptedBytes_spec_witness :
    (0 < 1 * 1 ∧ ([10, 20, 30, 40] : List Nat) ≠ []) ∧
      (useCorruptedBytes [10, 20, 30, 40] 1 1)[4 * 0]? = some 10 ∧
      (useCorruptedBytes [10, 20, 30, 40] 1 1)[4 * 0 + 1]? = some 20 ∧
      (useCorruptedBytes [10, 20, 30, 40] 1 1)[4 * 0 + 2]? = some 30 ∧
      (useCorruptedBytes [10, 20, 30, 40] 1 1)[4 * 0 + 3]? = some 255 := by
  have h := useCorruptedBytes_spec [10, 20, 30, 40] 1 1 0 (by decide) (by decide)
  exact ⟨⟨by decide, by decide⟩, h.2.1, h.2.2.1, h.2.2.2.1, h.2.2.2.2⟩

/-- C3: on a match at position `i` (which requires
`i + src.length <= bytes.length`), the overwrite writes the first
`min (len dest) (len source)` destination bytes at `i`, pads the rest of
the source-length window with the last destination byte when the
destination is shorter, and never grows the stream (a longer destination
is truncated to the source length).  Concretely, the stream
`[a, a, s, s, b]` with source `[s, s]` and destination `[d]` scanned
from offset 0 becomes `[a, a, d, d, b]` with replacement count 1. -/
theorem corruptReplacement_spec (src dst bytes : List Nat) (i : Nat)
    (hi : i + src.length ≤ bytes.length) (a s b d : Nat) (hne : a ≠ s) :
    (writeBytes bytes i (replacementBytes src dst)).length = bytes.length ∧
      (∀ j, j < min dst.length src.length →
        (writeBytes bytes i (replacementBytes src dst))[i + j]? = dst[j]?) ∧
      (dst.length < src.length → ∀ j, dst.length ≤ j → j < src.length →
        (writeBytes bytes i (replacementBytes src dst))[i + j]? =
          some (dst.getLastD 0)) ∧
      corruptScan [s, s] [d] [a, a, s, s, b] 0 = ([a, a, d, d, b], 1) := by
  refine ⟨writeBytes_length _ _ _, ?_, ?_, ?_⟩
  · intro j hj
    rw [writeBytes_getElem?_in _ _ _ _ (by omega)
        (by rw [replacementBytes_length]; omega) (by omega),
      Nat.add_sub_cancel_left]
    exact replacementBytes_getElem?_dest _ _ _ hj
  · intro hd j hj1 hj2
    rw [writeBytes_getElem?_in _ _ _ _ (by omega)
        (by rw [replacementBytes_length]; omega) (by omega),
      Nat.add_sub_cancel_left]
    exact replacementBytes_getElem?_pad _ _ _ hd hj1 hj2
  · have h0 : matchesAt [a, a, s, s, b] [s, s] 0 = false := by
      simp [matchesAt, List.range_succ, hne]
    have h1 : matchesAt [a, a, s, s, b] [s, s] 1 = false := by
      simp [matchesAt, List.range_succ, hne]
    have h2 : matchesAt [a, a, s, s, b] [s, s] 2 = true := by
      simp [matchesAt, List.range_succ]
    rw [corruptScan, dif_neg (by simp), dif_pos (by simp), if_neg (by simp [h0])]
    rw [corruptScan, dif_neg (by simp), dif_pos (by simp), if_neg (by simp [h1])]
    rw [corruptScan, dif_neg (by simp), dif_pos (by simp), if_pos h2]
    simp only []
    have hw : writeBytes [a, a, s, s, b] 2 (replacementBytes [s, s] [d]) =
        [a, a, d, d, b] := by
      simp [replacementBytes, writeBytes]
    rw [hw]
    rw [corruptScan, dif_neg (by simp), dif_neg (by simp)]

/-- Witness for C3 at a concrete stream and patterns. -/
theorem corruptReplacement_spec_witness :
    (0 + ([3, 3] : List Nat).length ≤ ([1, 1, 3, 3, 2] : List Nat).length ∧
        (1 : Nat) ≠ 3) ∧
      corruptScan [3, 3] [7] [1, 1, 3, 3, 2] 0 = ([1, 1, 7, 7, 2], 1) :=
  ⟨⟨by decide, by decide⟩,
    (corruptReplacement_spec [3, 3] [7] [1, 1, 3, 3, 2] 0 (by decide)
      1 3 2 7 (by decide)).2.2.2⟩

theorem corruptScanPositions_ge (src dst : List Nat) (bytes : List Nat)
    (i : Nat) : ∀ p ∈ corruptScanPositions src dst bytes i, i ≤ p := by
  induction bytes, i using corruptScanPositions.induct src dst with
  | case1 bytes i hsrc =>
    intro p hp
    rw [corruptScanPositions, dif_pos hsrc] at hp
    simp at hp
  | case2 bytes i hsrc h hm ih =>
    intro p hp
    rw [corruptScanPositions, dif_neg hsrc, dif_pos h, if_pos hm] at hp
    rcases List.mem_cons.mp hp with rfl | hp2
    · exact le_refl p
    · have := ih p hp2
      omega
  | case3 bytes i hsrc h hm ih =>
    intro p hp
    rw [corruptScanPositions, dif_neg hsrc, dif_pos h, if_neg hm] at hp
    have := ih p hp
    omega
  | case4 bytes i hsrc h =>
    intro p hp
    rw [corruptScanPositions, dif_neg hsrc, dif_neg h] at hp
    simp at hp

theorem corruptScan_count_eq_positions (src dst : List Nat)
    (bytes : List Nat) (i : Nat) :
    (corruptScan src dst bytes i).2 =
      (corruptScanPositions src dst bytes i).length := by
  induction bytes, i using corruptScanPositions.induct src dst with
  | case1 bytes i hsrc =>
    rw [corruptScan, corruptScanPositions, dif_pos hsrc, dif_pos hsrc]
    rfl
  | case2 bytes i hsrc h hm ih =>
    rw [corruptScan, corruptScanPositions, dif_neg hsrc, dif_neg hsrc,
      dif_pos h, dif_pos h, if_pos hm, if_pos hm]
    simp only [List.length_cons]
    rw [ih]
  | case3 bytes i hsrc h hm ih =>
    rw [corruptScan, corruptScanPositions, dif_neg hsrc, dif_neg hsrc,
      dif_pos h, dif_pos h, if_neg hm, if_neg hm]
    exact ih
  | case4 bytes i hsrc h =>
    rw [corruptScan, corruptScanPositions, dif_neg hsrc, dif_neg hsrc,
      dif_neg h, dif_neg h]
    rfl

theorem corruptScanPositions_chain (src dst : List Nat) (bytes : List Nat)
    (i : Nat) :
    List.Chain' (fun p q => p + src.length ≤ q)
      (corruptScanPositions src dst bytes i) := by
  induction bytes, i using corruptScanPositions.induct src dst with
  | case1 bytes i hsrc =>
    rw [corruptScanPositions, dif_pos hsrc]
    exact List.chain'_nil
  | case2 bytes i hsrc h hm ih =>
    rw [corruptScanPositions, dif_neg hsrc, dif_pos h, if_pos hm]
    rw [List.chain'_cons']
    refine ⟨?_, ih⟩
    intro y hy
    have hmem : y ∈ corruptScanPositions src dst
        (writeBytes bytes i (replacementBytes src dst)) (i + src.length) :=
      List.mem_of_mem_head? hy
    exact corruptScanPositions_ge _ _ _ _ y hmem
  | case3 bytes i hsrc h hm ih =>
    rw [corruptScanPositions, dif_neg hsrc, dif_pos h, if_neg hm]
    exact ih
  | case4 bytes i hsrc h =>
    rw [corruptScanPositions, dif_neg hsrc, dif_neg h]
    exact List.chain'_nil

/-- C4: matches are found left-to-right and never overlap: successive
recorded match positions are at least `src.length` apart, every
recorded position is at or after the start offset, and the replacement
count is the number of recorded positions.  Concretely, the source
pattern `[s, s]` against the stream `[s, s, s, s]` from offset 0 finds
exactly the 2 matches at positions 0 and 2, not 3. -/
theorem corruptScan_nonoverlap :
    (∀ (src dst bytes : List Nat) (i : Nat),
      (corruptScan src dst bytes i).2 =
        (corruptScanPositions src dst bytes i).length ∧
      List.Chain' (fun p q => p + src.length ≤ q)
        (corruptScanPositions src dst bytes i) ∧
      ∀ p ∈ corruptScanPositions src dst bytes i, i ≤ p) ∧
    ∀ s d : Nat, corruptScanPositions [s, s] [d] [s, s, s, s] 0 = [0, 2] ∧
      (corruptScan [s, s] [d] [s, s, s, s] 0).2 = 2 := by
  refine ⟨fun src dst bytes i =>
    ⟨corruptScan_count_eq_positions src dst bytes i,
     corruptScanPositions_chain src dst bytes i,
     corruptScanPositions_ge src dst bytes i⟩, ?_⟩
  intro s d
  have hw1 : writeBytes [s, s, s, s] 0 (replacementBytes [s, s] [d]) =
      [d, d, s, s] := by
    simp [replacementBytes, writeBytes]
  have hpos : corruptScanPositions [s, s] [d] [s, s, s, s] 0 = [0, 2] := by
    rw [corruptScanPositions, dif_neg (by simp), dif_pos (by simp),
      if_pos (by simp [matchesAt, List.range_succ]), hw1]
    norm_num
    rw [corruptScanPositions, dif_neg (by simp), dif_pos (by simp),
      if_pos (by simp [matchesAt, List.range_succ])]
    rw [show writeBytes [d, d, s, s] 2 (replacementBytes [s, s] [d]) =
        [d, d, d, d] from by simp [replacementBytes, writeBytes]]
    rw [corruptScanPositions, dif_neg (by simp), dif_neg (by simp)]
  refine ⟨hpos, ?_⟩
  rw [corruptScan_count_eq_positions, hpos]
  rfl

theorem formatMime_error_shape (format : String) (e : GlitchError)
    (h : formatMime format = .error e) :
    e = .unsupportedImageFormat format := by
  unfold formatMime at h
  split at h <;> simp_all

theorem streamSkipBytes_error_shape (headerProtection : Bool)
    (format : String) (e : GlitchError)
    (h : streamSkipBytes headerProtection format = .error e) :
    e = .unknownFormatForHeaderProtection format := by
  unfold streamSkipBytes at h
  split at h
  · split at h <;> simp_all
  · simp_all

theorem startByteOf_error_shape (headerProtection : Bool) (mode : String)
    (skipBytes len : Nat) (e : GlitchError)
    (h : startByteOf headerProtection mode skipBytes len = .error e) :
    e = .unknownModeForHeaderProtection mode := by
  unfold startByteOf at h
  split at h
  · split at h <;> simp_all
  · simp_all

theorem corruptImageBytes_error_shape (cfg : GlitchConfig)
    (bytes : List Nat) (skipBytes : Nat) (e : GlitchError)
    (h : corruptImageBytes cfg bytes skipBytes = .error e) :
    e = .unknownModeForHeaderProtection cfg.corruptionMode := by
  rw [corruptImageBytes] at h
  split at h
  · split at h
    · rename_i e2 heq
      simp only [Except.error.injEq] at h
      subst h
      exact startByteOf_error_shape _ _ _ _ _ heq
    · simp_all
  · simp_all

/-- Any error coming out of `corruptImageStream` is one of the four
stream-level throw sites; in particular it is never the
`Unknown corruption mode` error of `applyEffect`. -/
theorem corruptImageStream_error_shape (cfg : GlitchConfig)
    (isActive : Bool) (format : String) (prim : EncodePrimitive)
    (e : GlitchError)
    (h : corruptImageStream cfg isActive format prim = .error e) :
    e = .unsupportedImageFormat format ∨ e = .bmpNotSupportedByBrowser ∨
      e = .unknownFormatForHeaderProtection format ∨
      e = .unknownModeForHeaderProtection cfg.corruptionMode := by
  rw [corruptImageStream] at h
  split at h
  · rename_i e2 heq
    simp only [Except.error.injEq] at h
    subst h
    exact Or.inl (formatMime_error_shape _ _ heq)
  · rename_i mq
    split at h
    rename_i producedMime bytes _heq
    split at h
    · simp only [Except.error.injEq] at h
      subst h
      exact Or.inr (Or.inl rfl)
    · split at h
      · split at h
        · rename_i e2 heq
          simp only [Except.error.injEq] at h
          subst h
          exact Or.inr (Or.inr (Or.inl (streamSkipBytes_error_shape _ _ _ heq)))
        · split at h
          · rename_i e2 heq
            simp only [Except.error.injEq] at h
            subst h
            exact Or.inr (Or.inr (Or.inr
              (corruptImageBytes_error_shape _ _ _ _ heq)))
          · simp_all
      · simp_all

/-- C7: `setCorruptionMode` stores any mode string without validation;
a subsequent `applyEffect` with a configured mode outside the four
recognized values fails with the `Unknown corruption mode` error rather
than falling back to any default mode, and with any of the four
recognized modes `applyEffect` never raises that error. -/
theorem applyEffect_unknownMode :
    (∀ (cfg : GlitchConfig) (mode : String),
      (cfg.setCorruptionMode mode).corruptionMode = mode) ∧
    (∀ (cfg : GlitchConfig) (isActive : Bool) (prim : EncodePrimitive),
      cfg.corruptionMode ∉ (["jpeg", "png", "webp", "bmp"] : List String) →
      applyEffect cfg isActive prim =
        .error (.unknownCorruptionMode cfg.corruptionMode)) ∧
    (∀ (cfg : GlitchConfig) (isActive : Bool) (prim : EncodePrimitive)
      (m : String),
      cfg.corruptionMode ∈ (["jpeg", "png", "webp", "bmp"] : List String) →
      applyEffect cfg isActive prim ≠ .error (.unknownCorruptionMode m)) := by
  refine ⟨fun cfg mode => rfl, ?_, ?_⟩
  · intro cfg isActive prim hnot
    rw [applyEffect]
    split <;> simp_all
  · intro cfg isActive prim m hmem h
    simp only [List.mem_cons, List.not_mem_nil, or_false] at hmem
    have hshape : ∀ format : String,
        corruptImageStream cfg isActive format prim =
          .error (.unknownCorruptionMode m) → False := by
      intro format hfmt
      rcases corruptImageStream_error_shape cfg isActive format prim _ hfmt
        with h1 | h1 | h1 | h1 <;> simp at h1
    rw [applyEffect] at h
    rcases hmem with hm | hm | hm | hm <;> rw [hm] at h <;>
      exact hshape _ (by simpa using h)

/-- Witness for C7: an unrecognized mode string is stored and rejected
at `applyEffect` time, a recognized one is not. -/
theorem applyEffect_unknownMode_witness :
    ((GlitchConfig.mk "a" "b" "invalid" true).corruptionMode ∉
        (["jpeg", "png", "webp", "bmp"] : List String)) ∧
      applyEffect (GlitchConfig.mk "a" "b" "invalid" true) true
          (fun _ _ => ("image/jpeg", [])) =
        .error (.unknownCorruptionMode "invalid") ∧
      ((GlitchConfig.mk "a" "b" "jpeg" true).corruptionMode ∈
        (["jpeg", "png", "webp", "bmp"] : List String)) ∧
      applyEffect (GlitchConfig.mk "a" "b" "jpeg" true) true
          (fun _ _ => ("image/jpeg", [])) ≠
        .error (.unknownCorruptionMode "jpeg") := by
  refine ⟨by decide, ?_, by decide, ?_⟩
  · exact applyEffect_unknownMode.2.1 (GlitchConfig.mk "a" "b" "invalid" true)
      true (fun _ _ => ("image/jpeg", [])) (by decide)
  · exact applyEffect_unknownMode.2.2 (GlitchConfig.mk "a" "b" "jpeg" true)
      true (fun _ _ => ("image/jpeg", [])) "jpeg" (by decide)

/-- C8: a BMP encode request whose platform primitive silently produces
a PNG payload fails the BMP support check with an error of the spec
kind UnsupportedFormat instead of proceeding; a request for a format
outside the four enumerated ones also fails with an error of that
kind. -/
theorem corruptImageStream_unsupported :
    (∀ (cfg : GlitchConfig) (isActive : Bool) (prim : EncodePrimitive),
      (prim "image/bmp" none).1 = "image/png" →
      corruptImageStream cfg isActive "bmp" prim =
          .error .bmpNotSupportedByBrowser ∧
        GlitchError.bmpNotSupportedByBrowser.isUnsupportedFormat = true) ∧
    (∀ (cfg : GlitchConfig) (isActive : Bool) (format : String)
      (prim : EncodePrimitive),
      format ∉ (["jpeg", "png", "webp", "bmp"] : List String) →
      corruptImageStream cfg isActive format prim =
          .error (.unsupportedImageFormat format) ∧
        (GlitchError.unsupportedImageFormat format).isUnsupportedFormat =
          true) := by
  constructor
  · intro cfg isActive prim hpm
    refine ⟨?_, rfl⟩
    rcases hprim : prim "image/bmp" none with ⟨pm, bs⟩
    rw [hprim] at hpm
    simp only at hpm
    subst hpm
    rw [corruptImageStream]
    rw [show formatMime "bmp" = Except.ok ("image/bmp", none) from rfl]
    simp only [hprim]
    rw [if_pos (by decide)]
  · intro cfg isActive format prim hnot
    refine ⟨?_, rfl⟩
    have hfm : formatMime format = .error (.unsupportedImageFormat format) := by
      unfold formatMime
      split <;> simp_all
    rw [corruptImageStream, hfm]

/-- Witness for C8: a primitive that always returns a PNG payload, and
the unrecognized format string gif. -/
theorem corruptImageStream_unsupported_witness :
    ((fun (_ : String) (_ : Option ℚ) => ("image/png", ([] : List Nat)))
        "image/bmp" none).1 = "image/png" ∧
      corruptImageStream GlitchConfig.init true "bmp"
          (fun _ _ => ("image/png", [])) = .error .bmpNotSupportedByBrowser ∧
      ("gif" ∉ (["jpeg", "png", "webp", "bmp"] : List String)) ∧
      corruptImageStream GlitchConfig.init true "gif"
          (fun _ _ => ("image/png", [])) =
        .error (.unsupportedImageFormat "gif") := by
  refine ⟨rfl, ?_, by decide, ?_⟩
  · exact (corruptImageStream_unsupported.1 GlitchConfig.init true
      (fun _ _ => ("image/png", [])) rfl).1
  · exact (corruptImageStream_unsupported.2 GlitchConfig.init true "gif"
      (fun _ _ => ("image/png", [])) (by decide)).1

theorem matchesAtChecked_of_all (bytes src : List Nat) (i : Nat)
    (hall : ∀ k, k < src.length → bytes[i + k]? = some (src.getD k 0)) :
    ∀ j, matchesAtChecked bytes src i j = some true := by
  intro j
  induction j using matchesAtChecked.induct bytes src i with
  | case1 j hj heq =>
    rw [hall j hj] at heq
    exact absurd heq (by simp)
  | case2 j hj hread ih =>
    rw [matchesAtChecked, dif_pos hj, hread]
    simpa using ih
  | case3 j hj b heq hb =>
    rw [hall j hj] at heq
    simp only [Option.some.injEq] at heq
    exact absurd heq.symm hb
  | case4 j hj =>
    rw [matchesAtChecked, dif_neg hj]

theorem matchesAtChecked_of_mismatch (bytes src : List Nat) (i : Nat)
    (hlen : i + src.length ≤ bytes.length) :
    ∀ j, (∃ k, j ≤ k ∧ k < src.length ∧
        bytes[i + k]? ≠ some (src.getD k 0)) →
      matchesAtChecked bytes src i j = some false := by
  intro j
  induction j using matchesAtChecked.induct bytes src i with
  | case1 j hj heq =>
    intro _
    have : i + j < bytes.length := by omega
    rw [List.getElem?_eq_getElem this] at heq
    exact absurd heq (by simp)
  | case2 j hj hread ih =>
    intro hex
    rw [matchesAtChecked, dif_pos hj, hread]
    have hex2 : ∃ k, j + 1 ≤ k ∧ k < src.length ∧
        bytes[i + k]? ≠ some (src.getD k 0) := by
      obtain ⟨k, hk1, hk2, hk3⟩ := hex
      refine ⟨k, ?_, hk2, hk3⟩
      rcases Nat.eq_or_lt_of_le hk1 with rfl | hlt
      · exact absurd hread hk3
      · omega
    simpa using ih hex2
  | case3 j hj b heq hb =>
    intro _
    rw [matchesAtChecked, dif_pos hj, heq]
    show (if b = src.getD j 0 then matchesAtChecked bytes src i (j + 1)
      else some false) = some false
    rw [if_neg hb]
  | case4 j hj =>
    intro hex
    obtain ⟨k, hk1, hk2, _⟩ := hex
    omega

theorem matchesAtChecked_eq (bytes src : List Nat) (i : Nat)
    (hlen : i + src.length ≤ bytes.length) :
    matchesAtChecked bytes src i 0 = some (matchesAt bytes src i) := by
  cases hm : matchesAt bytes src i with
  | true =>
    apply matchesAtChecked_of_all
    intro k hk
    have := List.all_eq_true.mp hm k (List.mem_range.mpr hk)
    simpa using this
  | false =>
    apply matchesAtChecked_of_mismatch bytes src i hlen
    obtain ⟨k, hk, hne⟩ := List.all_eq_false.mp hm
    exact ⟨k, Nat.zero_le k, List.mem_range.mp hk, by simpa using hne⟩

theorem writeBytesChecked_eq (repl : List Nat) :
    ∀ (bytes : List Nat) (i : Nat), i + repl.length ≤ bytes.length →
      writeBytesChecked bytes i repl = some (writeBytes bytes i repl) := by
  induction repl with
  | nil => intro bytes i _; rfl
  | cons b rest ih =>
    intro bytes i hlen
    simp only [List.length_cons] at hlen
    rw [writeBytesChecked, writeBytes, if_pos (by omega)]
    exact ih (bytes.set i b) (i + 1) (by simp; omega)

/-- C10: the scan-and-replace loop with fully checked indexing (where
any out-of-range read in the match test or out-of-range write in the
replacement takes the error branch) never takes the error branch: it
always returns exactly the result of the unchecked scan, for every
stream, pattern pair and start offset.  (For an empty source pattern
both scans short-circuit, so the equivalence is unconditional.) -/
theorem corruptScanChecked_eq (src dst : List Nat) (bytes : List Nat)
    (i : Nat) :
    corruptScanChecked src dst bytes i = some (corruptScan src dst bytes i) := by
  induction bytes, i using corruptScan.induct src dst with
  | case1 bytes i hsrc =>
    rw [corruptScanChecked, corruptScan, dif_pos hsrc, dif_pos hsrc]
  | case2 bytes i hsrc h hm b2 ih =>
    rw [corruptScanChecked, corruptScan, dif_neg hsrc, dif_neg hsrc,
      dif_pos h, dif_pos h, if_pos hm]
    simp only []
    rw [matchesAtChecked_eq bytes src i h, hm]
    simp only []
    have hw : writeBytesChecked bytes i (replacementBytes src dst) =
        some (writeBytes bytes i (replacementBytes src dst)) := by
      apply writeBytesChecked_eq
      rw [replacementBytes_length]
      exact h
    split
    · rename_i heq
      rw [hw] at heq
      exact absurd heq (by simp)
    · rename_i bytes2 heq
      rw [hw] at heq
      simp only [Option.some.injEq] at heq
      subst heq
      rw [ih]
  | case3 bytes i hsrc h hm ih =>
    rw [corruptScanChecked, corruptScan, dif_neg hsrc, dif_neg hsrc,
      dif_pos h, dif_pos h, if_neg hm]
    rw [matchesAtChecked_eq bytes src i h]
    simp only [Bool.not_eq_true] at hm
    rw [hm]
    exact ih
  | case4 bytes i hsrc h =>
    rw [corruptScanChecked, corruptScan, dif_neg hsrc, dif_neg hsrc,
      dif_neg h, dif_neg h]
